import Mathlib

/-!
# FX-Aware Marketing & Pricing Strategy Agent — verification of core layers

A shallow embedding, in Lean 4, of the pure data/state layer of the
FX pricing pipeline repository:

* JSON extraction and text/JSON splitting (`_extract_json_block`,
  `_split_text_and_json` in the Final Pipeline module);
* the session memory store (`FxMemoryService` in the Memory System module);
* the observability collector (`FxObservabilityPlugin` in the
  Observability & Callbacks module);
* the per-result health check (`evaluate_pipeline_output_basic` in the
  Long-Running & Regression module);
* the inline vendor-FX rate extraction of `run_full_fx_pricing_pipeline`.

Conventions of the embedding:

* Python `str` is modelled as `List Char` (for the character-level
  extraction routines) or Lean `String` (for record fields);
* Python `float` timestamps, durations and scores are modelled as `ℚ`
  (only order, `+`, `-`, `*` and `/` are used on them, never rounding);
* Python dicts are modelled as association lists with first-match lookup;
* `json.loads` is not re-implemented: every operation that parses JSON is
  parameterised by a function `loads : String → Option JsonVal`, where
  `none` models a raised exception; theorems hold for every such function;
* `time.time()` / `time.strftime` are passed in as explicit arguments;
* a Python method that mutates `self` becomes a function returning the
  updated state; all functions are total, which is the embedding of the
  "never raises" contracts.
-/

/-! ## Python string primitives -/

/-- ASCII whitespace set stripped by Python's `str.strip()` (the Unicode
whitespace code points are irrelevant to every theorem below). -/
def py_is_space (c : Char) : Bool :=
  c = ' ' || c = '\t' || c = '\n' || c = '\r' || c = '\x0b' || c = '\x0c'

/-- `str.lstrip()`. -/
def py_lstrip (s : List Char) : List Char := s.dropWhile py_is_space

/-- `str.rstrip()`. -/
def py_rstrip (s : List Char) : List Char := (s.reverse.dropWhile py_is_space).reverse

/-- `str.strip()`. -/
def py_strip (s : List Char) : List Char := py_rstrip (py_lstrip s)

/-- `str.strip()` on Lean `String`s. -/
def py_strip_s (s : String) : String := ⟨py_strip s.data⟩

/-- `str.rstrip()` on Lean `String`s. -/
def py_rstrip_s (s : String) : String := ⟨py_rstrip s.data⟩

/-- `str.lower()` (ASCII case fold, which is what every key in the
repository uses). -/
def py_lower (s : String) : String := ⟨s.data.map Char.toLower⟩

/-- `text.find(pat)`: index of the first occurrence of `pat` as a
contiguous substring, `none` when absent (Python returns `-1`). -/
def str_find (pat : List Char) : List Char → Option Nat
  | [] => if pat = [] then some 0 else none
  | c :: rest =>
    if pat.isPrefixOf (c :: rest) then some 0
    else (str_find pat rest).map (· + 1)

/-- `text.find(c)` for a single character. -/
def first_idx_of (c : Char) (s : List Char) : Option Nat := str_find [c] s

/-- `text.rfind(c)` for a single character: index of the last occurrence. -/
def last_idx_of (c : Char) (s : List Char) : Option Nat :=
  (str_find [c] s.reverse).map (fun i => s.length - 1 - i)

/-! ## `_extract_json_block` and `_split_text_and_json`
(Final Pipeline module) -/

/-- The opening fence recognised by the regex `r"```json(.*?)```"`. -/
def fence_open : List Char := "```json".data

/-- The closing fence. -/
def fence_close : List Char := "```".data

/-- `re.finditer(r"```json(.*?)```", text, re.S)`: the group-1 contents of
the successive non-overlapping, non-greedy fenced matches, scanned left to
right.  The fuel argument only bounds the number of scan iterations; each
iteration consumes at least the two fences (10 characters), so `s.length`
iterations always suffice. -/
def fenced_blocks_aux : Nat → List Char → List (List Char)
  | 0, _ => []
  | fuel + 1, s =>
    match str_find fence_open s with
    | none => []
    | some i =>
      let rest := s.drop (i + 7)
      match str_find fence_close rest with
      | none => []
      | some j => rest.take j :: fenced_blocks_aux fuel (rest.drop (j + 3))

/-- All fenced JSON blocks of a text, in scan order. -/
def fenced_blocks (s : List Char) : List (List Char) :=
  fenced_blocks_aux s.length s

/-- `_extract_json_block`: last fenced block (stripped) when one exists;
otherwise the inclusive slice from the first `{` to the last `}` (stripped)
when the first `{` is strictly before the last `}`; otherwise the literal
`"\x7b\x7d"`.  Total, so the source's "never raise" contract is immediate. -/
def extract_json_block (s : List Char) : List Char :=
  match (fenced_blocks s).getLast? with
  | some block => py_strip block
  | none =>
    match first_idx_of '{' s, last_idx_of '}' s with
    | some first, some last =>
      if first < last then py_strip ((s.drop first).take (last + 1 - first))
      else "\x7b\x7d".data
    | _, _ => "\x7b\x7d".data

/-- `_extract_json_block` at the `String` level. -/
def extract_json_block_str (s : String) : String := ⟨extract_json_block s.data⟩

/-- `_split_text_and_json`: partition at the first `"```json"` marker;
the head (stripped) is the narrative text, the JSON part is
`_extract_json_block` applied to the marker plus the tail; if the marker
is absent the whole stripped text is narrative and the JSON part is
`"\x7b\x7d"`. -/
def split_text_and_json (s : List Char) : List Char × List Char :=
  match str_find fence_open s with
  | some i => (py_strip (s.take i), extract_json_block (fence_open ++ s.drop (i + 7)))
  | none => (py_strip s, "\x7b\x7d".data)

/-- `_split_text_and_json` at the `String` level. -/
def split_text_and_json_str (s : String) : String × String :=
  (⟨(split_text_and_json s.data).1⟩, ⟨(split_text_and_json s.data).2⟩)

/-! ## JSON values and the `json.loads` boundary -/

/-- The values `json.loads` can produce.  Numbers are modelled as `ℚ`;
booleans are kept separate because Python's `bool` is a subclass of `int`,
which several `isinstance(x, (int, float))` guards in the source accept. -/
inductive JsonVal where
  | null : JsonVal
  | bool (b : Bool) : JsonVal
  | num (q : ℚ) : JsonVal
  | str (s : String) : JsonVal
  | arr (xs : List JsonVal) : JsonVal
  | obj (kvs : List (String × JsonVal)) : JsonVal

/-- First-match lookup in a decoded JSON object (`obj[k]` / `k in obj`). -/
def json_get (k : String) : List (String × JsonVal) → Option JsonVal
  | [] => none
  | (k', v) :: rest => if k' = k then some v else json_get k rest

/-- Python's `isinstance(x, (int, float))` on a decoded JSON value: true
for numbers and for booleans (`bool` is an `int` subclass), false
otherwise. -/
def py_is_number : JsonVal → Bool
  | JsonVal.num _ => true
  | JsonVal.bool _ => true
  | _ => false

/-- Python's `float(x)` on a value accepted by `py_is_number`. -/
def py_to_float : JsonVal → ℚ
  | JsonVal.num q => q
  | JsonVal.bool b => if b then 1 else 0
  | _ => 0

/-- `isinstance(x, dict)` on a decoded JSON value. -/
def is_json_obj : JsonVal → Bool
  | JsonVal.obj _ => true
  | _ => false

/-- The type of the `json.loads` boundary: `none` models a raised
exception, `some v` a successful decode to `v`. -/
def JsonLoads : Type := String → Option JsonVal

/-! ## Memory System: `FxMemoryEntry` and `FxMemoryService` -/

/-- `FxMemoryEntry`: one stored FX pricing session (dataclass of the
Memory System module).  `created_at_ts` and `evaluation_overall_score`
are Python floats, modelled as `ℚ`. -/
structure FxMemoryEntry where
  created_at_ts : ℚ
  product_name : String
  region : String
  reporting_currency : String
  manager_notes : String
  market_research_json : String
  competitive_pricing_json : String
  fx_impact_json : String
  margin_scenarios_json : String
  decision_brief_text : String
  structured_summary_json : String
  evaluation_json : String
  compacted_summary : Option String := none
  session_id : Option String := none
  user_id : Option String := none
  scenario_label : Option String := none
  evaluation_overall_score : Option ℚ := none
deriving DecidableEq

/-- Aggregate metrics per key (the dict built by
`_update_aggregate_metrics`). -/
structure AggregateMetrics where
  session_count : Nat
  avg_evaluation_overall_score : Option ℚ
  avg_recommended_price : Option ℚ
  avg_target_margin_pct : Option ℚ
  first_session_ts : Option ℚ
  last_session_ts : Option ℚ
deriving DecidableEq

/-- A Python `dict` keyed by `(product, region)` pairs, as an association
list with first-match lookup (keys are unique in every state the class
itself builds). -/
def alGet {κ β : Type} [DecidableEq κ] (k : κ) : List (κ × β) → Option β
  | [] => none
  | (k', v) :: rest => if k' = k then some v else alGet k rest

/-- `d[k] = v`: replace the first binding of `k`, or append a new one. -/
def alSet {κ β : Type} [DecidableEq κ] (k : κ) (v : β) : List (κ × β) → List (κ × β)
  | [] => [(k, v)]
  | (k', v') :: rest => if k' = k then (k, v) :: rest else (k', v') :: alSet k v rest

/-- `d.pop(k, None)`: drop every binding of `k`. -/
def alErase {κ β : Type} [DecidableEq κ] (k : κ) : List (κ × β) → List (κ × β)
  | [] => []
  | (k', v) :: rest => if k' = k then alErase k rest else (k', v) :: alErase k rest

/-- The state of `FxMemoryService`: the per-key session buckets, the
consolidated digests, the aggregate metrics, and the per-key cap. -/
structure FxMemoryService where
  max_sessions_per_key : Nat
  store : List ((String × String) × List FxMemoryEntry) := []
  consolidated : List ((String × String) × String) := []
  aggregate_metrics : List ((String × String) × AggregateMetrics) := []
deriving DecidableEq

/-- `FxMemoryService.__init__(max_sessions_per_key)`. -/
def fx_memory_init (max_sessions_per_key : Nat) : FxMemoryService :=
  { max_sessions_per_key := max_sessions_per_key }

/-- `FxMemoryService._key`: trim surrounding whitespace and case-fold
both components. -/
def norm_key (product_name region : String) : String × String :=
  (py_lower (py_strip_s product_name), py_lower (py_strip_s region))

/-- `FxMemoryService._safe_parse_json`.  The source also short-circuits on
`None`, `dict` and other non-`str` inputs; at every call site in the class
the argument is a `str` field, so only the `str` path is embedded.
Returns the decoded object's bindings, or `none` when the text is blank,
fails to decode, or decodes to a non-dict. -/
def safe_parse_json (loads : JsonLoads) (value : String) : Option (List (String × JsonVal)) :=
  if py_strip_s value = "" then none
  else
    match loads value with
    | some (JsonVal.obj kvs) => some kvs
    | some _ => none
    | none => none

/-- The numeric field extraction `obj.get(f)` + `isinstance(rp, (int, float))`
used for `recommended_price` / `target_margin_pct` / `overall_score`. -/
def numeric_field (kvs : List (String × JsonVal)) (f : String) : Option ℚ :=
  match json_get f kvs with
  | some v => if py_is_number v then some (py_to_float v) else none
  | none => none

/-- `FxMemoryService._update_aggregate_metrics` for one key. -/
def update_aggregate_metrics (loads : JsonLoads) (key : String × String)
    (st : FxMemoryService) : FxMemoryService :=
  match (alGet key st.store).getD [] with
  | [] =>
    let m : AggregateMetrics := ⟨0, none, none, none, none, none⟩
    { st with aggregate_metrics := alSet key m st.aggregate_metrics }
  | e0 :: rest =>
    let entries := e0 :: rest
    let eval_scores := entries.filterMap (fun e => e.evaluation_overall_score)
    let prices := entries.filterMap (fun e =>
      match safe_parse_json loads e.structured_summary_json with
      | some kvs => if kvs.isEmpty then none else numeric_field kvs "recommended_price"
      | none => none)
    let margins := entries.filterMap (fun e =>
      match safe_parse_json loads e.structured_summary_json with
      | some kvs => if kvs.isEmpty then none else numeric_field kvs "target_margin_pct"
      | none => none)
    let timestamps := entries.map (fun e => e.created_at_ts)
    let avg_eval := if eval_scores.isEmpty then none
      else some (eval_scores.sum / (eval_scores.length : ℚ))
    let avg_price := if prices.isEmpty then none
      else some (prices.sum / (prices.length : ℚ))
    let avg_margin := if margins.isEmpty then none
      else some (margins.sum / (margins.length : ℚ))
    let m : AggregateMetrics :=
      ⟨entries.length, avg_eval, avg_price, avg_margin,
        timestamps.min?, timestamps.max?⟩
    { st with aggregate_metrics := alSet key m st.aggregate_metrics }

/-- The keyword arguments of `add_session_to_memory`. -/
structure AddSessionArgs where
  product_name : String
  region : String
  reporting_currency : String := ""
  manager_notes : String := ""
  market_research_json : String := ""
  competitive_pricing_json : String := ""
  fx_impact_json : String := ""
  margin_scenarios_json : String := ""
  decision_brief_text : String := ""
  structured_summary_json : String := ""
  evaluation_json : String := ""
  session_id : Option String := none
  user_id : Option String := none
  scenario_label : Option String := none
  evaluation_overall_score : Option ℚ := none

/-- The entry built by `add_session_to_memory` (with the
`evaluation_overall_score` back-fill from the evaluation JSON), before
insertion.  `now` is the `time.time()` call. -/
def mk_session_entry (loads : JsonLoads) (now : ℚ) (a : AddSessionArgs) : FxMemoryEntry :=
  let score :=
    match a.evaluation_overall_score with
    | some s => some s
    | none =>
      if a.evaluation_json ≠ "" then
        match safe_parse_json loads a.evaluation_json with
        | some kvs => numeric_field kvs "overall_score"
        | none => none
      else none
  { created_at_ts := now,
    product_name := a.product_name,
    region := a.region,
    reporting_currency := a.reporting_currency,
    manager_notes := a.manager_notes,
    market_research_json := a.market_research_json,
    competitive_pricing_json := a.competitive_pricing_json,
    fx_impact_json := a.fx_impact_json,
    margin_scenarios_json := a.margin_scenarios_json,
    decision_brief_text := a.decision_brief_text,
    structured_summary_json := a.structured_summary_json,
    evaluation_json := a.evaluation_json,
    session_id := a.session_id,
    user_id := a.user_id,
    scenario_label := a.scenario_label,
    evaluation_overall_score := score }

/-- `FxMemoryService.add_session_to_memory`: build the entry, insert it at
the front of its bucket, truncate the bucket to the cap, recompute the
aggregate metrics, return the new state and the entry. -/
def add_session_to_memory (loads : JsonLoads) (st : FxMemoryService) (now : ℚ)
    (a : AddSessionArgs) : FxMemoryService × FxMemoryEntry :=
  let key := norm_key a.product_name a.region
  let entry := mk_session_entry loads now a
  let bucket := entry :: (alGet key st.store).getD []
  let bucket' := if bucket.length > st.max_sessions_per_key
    then bucket.take st.max_sessions_per_key else bucket
  let st' := update_aggregate_metrics loads key
    { st with store := alSet key bucket' st.store }
  (st', entry)

/-- `FxMemoryService.load_last_session`. -/
def load_last_session (st : FxMemoryService) (product_name region : String) :
    Option FxMemoryEntry :=
  ((alGet (norm_key product_name region) st.store).getD []).head?

/-- `FxMemoryService.search_memory`: up to `limit` entries, newest first. -/
def search_memory (st : FxMemoryService) (product_name region : String)
    (limit : Nat) : List FxMemoryEntry :=
  ((alGet (norm_key product_name region) st.store).getD []).take limit

/-- `FxMemoryService.get_consolidated_memory`. -/
def get_consolidated_memory (st : FxMemoryService) (product_name region : String) :
    Option String :=
  alGet (norm_key product_name region) st.consolidated

/-- `FxMemoryService.get_aggregate_metrics`. -/
def get_aggregate_metrics (st : FxMemoryService) (product_name region : String) :
    Option AggregateMetrics :=
  alGet (norm_key product_name region) st.aggregate_metrics

/-- `FxMemoryService.get_session_count`. -/
def get_session_count (st : FxMemoryService) (product_name region : String) : Nat :=
  ((alGet (norm_key product_name region) st.store).getD []).length

/-- `FxMemoryService.consolidate_recent_sessions`.  `fmt` stands for
`time.strftime("%Y-%m-%d %H:%M:%S", time.localtime(·))`, the only
real-time dependency of the method.  Builds the digest, caches it under
the key, and writes it onto the newest entry's `compacted_summary`. -/
def consolidate_recent_sessions (fmt : ℚ → String) (st : FxMemoryService)
    (product_name region : String) (max_sessions : Nat := 5)
    (max_chars_per_note : Nat := 160) : FxMemoryService × String :=
  match search_memory st product_name region max_sessions with
  | [] =>
    let key := norm_key product_name region
    let summary := "No stored FX sessions yet for product='" ++ product_name ++
      "' in region='" ++ region ++ "'."
    ({ st with consolidated := alSet key summary st.consolidated }, summary)
  | e0 :: rest =>
    let entries := e0 :: rest
    let key := norm_key product_name region
    let header := "FX memory summary for product='" ++ product_name ++
      "' in region='" ++ region ++ "' (last " ++ toString entries.length ++
      " sessions, max " ++ toString st.max_sessions_per_key ++ " stored):"
    let line := fun (idx : Nat) (e : FxMemoryEntry) =>
      let notes0 := (py_strip_s e.manager_notes).replace "\n" " "
      let notes := if notes0.length > max_chars_per_note
        then py_rstrip_s (notes0.take max_chars_per_note) ++ "..."
        else notes0
      "- #" ++ toString idx ++ " at " ++ fmt e.created_at_ts ++
        ", price decision context in " ++ e.reporting_currency ++
        ", manager_notes='" ++ notes ++ "'"
    let lines := entries.enum.map (fun p => line (p.1 + 1) p.2)
    let summary := String.intercalate "\n" (header :: lines)
    let bucket := (alGet key st.store).getD []
    let bucket' := match bucket with
      | [] => []
      | b0 :: bs => { b0 with compacted_summary := some summary } :: bs
    ({ st with consolidated := alSet key summary st.consolidated,
               store := alSet key bucket' st.store }, summary)

/-- One iteration of the key loop of `prune_sessions_older_than`:
filter the key's bucket by the cutoff; if entries survive, store them and
recompute the key's metrics, otherwise drop the key's bucket, digest and
metrics.  The second component accumulates the removal count. -/
def prune_key_step (loads : JsonLoads) (cutoff_ts : ℚ)
    (acc : FxMemoryService × Nat) (key : String × String) : FxMemoryService × Nat :=
  let st := acc.1
  let entries := (alGet key st.store).getD []
  let new_entries := entries.filter (fun e => cutoff_ts ≤ e.created_at_ts)
  let removed := acc.2 + (entries.length - new_entries.length)
  if new_entries.isEmpty then
    ({ st with store := alErase key st.store,
               consolidated := alErase key st.consolidated,
               aggregate_metrics := alErase key st.aggregate_metrics }, removed)
  else
    (update_aggregate_metrics loads key { st with store := alSet key new_entries st.store },
      removed)

/-- `FxMemoryService.prune_sessions_older_than`: `cutoff_ts = now - age`,
iterate over a snapshot of the store's keys, keep entries with
`created_at_ts >= cutoff_ts`, and return the new state together with the
total number of removed entries. -/
def prune_sessions_older_than (loads : JsonLoads) (st : FxMemoryService)
    (now age_seconds : ℚ) : FxMemoryService × Nat :=
  let cutoff_ts := now - age_seconds
  let keys := st.store.map (fun kv => kv.1)
  keys.foldl (prune_key_step loads cutoff_ts) (st, 0)

/-- Total number of entries currently stored across all keys. -/
def total_entries (st : FxMemoryService) : Nat :=
  (st.store.map (fun kv => kv.2.length)).sum

/-! ## Observability Collector (`FxObservabilityPlugin`) -/

/-- One message part (`types.Part`): an optional text payload. -/
structure MsgPart where
  text : Option String := none
deriving DecidableEq

/-- One message / content object: an optional list of parts
(`getattr(m, "parts", []) or []`). -/
structure MsgContent where
  parts : Option (List MsgPart) := none
deriving DecidableEq

/-- One response candidate. -/
structure RespCandidate where
  content : Option MsgContent := none
deriving DecidableEq

/-- A model response: an optional candidate list. -/
structure ModelResponse where
  candidates : Option (List RespCandidate) := none
deriving DecidableEq

/-- The keyword arguments the callbacks read
(`kwargs.get(...)`; `none` models a missing key or `None` value). -/
structure CallbackKwargs where
  model_name : Option String := none
  model : Option String := none
  messages : Option (List MsgContent) := none
  contents : Option (List MsgContent) := none
  tool_name : Option String := none
  tool : Option String := none
  user_id : Option String := none
  session_id : Option String := none
  response : Option ModelResponse := none

/-- Python `a or b` on optional strings: `a` unless it is `None` or
empty. -/
def py_or_str (a b : Option String) : Option String :=
  match a with
  | some s => if s.isEmpty then b else some s
  | none => b

/-- Python `a or b` on optional lists: `a` unless it is `None` or empty. -/
def py_or_list {α : Type} (a b : Option (List α)) : Option (List α) :=
  match a with
  | some l => if l.isEmpty then b else some l
  | none => b

/-- Python `str(x)` where `x` is an optional string (`str(None)` is
`"None"`). -/
def py_str_of (a : Option String) : String :=
  match a with
  | some s => s
  | none => "None"

/-- `len(text)` summed over the parts of one message, skipping `None`
and empty texts (`if text:`). -/
def part_text_chars (p : MsgPart) : Nat :=
  match p.text with
  | some t => if t.isEmpty then 0 else t.length
  | none => 0

/-- Prompt characters contributed by one message. -/
def content_prompt_chars (m : MsgContent) : Nat :=
  ((m.parts.getD []).map part_text_chars).sum

/-- The `prompt_chars` loop of `before_model_callback`
(`if messages:` skips `None` and the empty list). -/
def messages_prompt_chars (ms : Option (List MsgContent)) : Nat :=
  match ms with
  | some l => if l.isEmpty then 0 else (l.map content_prompt_chars).sum
  | none => 0

/-- Response characters contributed by one candidate. -/
def candidate_resp_chars (c : RespCandidate) : Nat :=
  match c.content with
  | some content =>
    match content.parts with
    | some ps => if ps.isEmpty then 0 else (ps.map part_text_chars).sum
    | none => 0
  | none => 0

/-- The `response_chars` loop of `after_model_callback`
(`if response and getattr(response, "candidates", None):`). -/
def response_chars_of (r : Option ModelResponse) : Nat :=
  match r with
  | some resp =>
    match resp.candidates with
    | some cs => if cs.isEmpty then 0 else (cs.map candidate_resp_chars).sum
    | none => 0
  | none => 0

/-- One recorded observability event (the dicts appended to
`self.events`; fields that a given event type does not set are `none`). -/
structure ObsEvent where
  ts : ℚ
  etype : String
  model : Option String := none
  tool : Option String := none
  agent : Option String := none
  prompt_chars : Option Nat := none
  response_chars : Option Nat := none
  duration_ms : Option ℚ := none
  error : Option String := none
  user_id : Option String := none
  session_id : Option String := none
deriving DecidableEq

/-- The mutable state of `FxObservabilityPlugin`.  The Python start
stacks are lists appended at the right end and popped with `pop()`. -/
structure FxObservabilityPlugin where
  model_invocations : Nat := 0
  tool_invocations : Nat := 0
  agent_invocations : Nat := 0
  errors : List String := []
  events : List ObsEvent := []
  model_start_stack : List ℚ := []
  tool_start_stack : List ℚ := []
  agent_start_stack : List ℚ := []
  total_model_time_ms : ℚ := 0
  total_tool_time_ms : ℚ := 0
  total_agent_time_ms : ℚ := 0
  total_prompt_chars : Nat := 0
  total_response_chars : Nat := 0
deriving DecidableEq

/-- `FxObservabilityPlugin.__init__` (the `log_prompts` / `log_responses`
flags are forwarded nowhere and stored nowhere). -/
def fx_obs_init : FxObservabilityPlugin := {}

/-- `before_model_callback`.  `t_push` and `t_event` are the two
successive `self._now()` calls (stack push, then event timestamp); the
trailing `super().before_model_callback(...)` only performs logging I/O
and touches none of the state modelled here. -/
def before_model_callback (st : FxObservabilityPlugin) (t_push t_event : ℚ)
    (kw : CallbackKwargs) : FxObservabilityPlugin :=
  let model_name := py_or_str kw.model_name kw.model
  let prompt_chars := messages_prompt_chars (py_or_list kw.messages kw.contents)
  { st with
    model_invocations := st.model_invocations + 1,
    total_prompt_chars := st.total_prompt_chars + prompt_chars,
    model_start_stack := st.model_start_stack ++ [t_push],
    events := st.events ++
      [{ ts := t_event, etype := "model_before",
         model := some (py_str_of model_name),
         prompt_chars := some prompt_chars,
         user_id := kw.user_id, session_id := kw.session_id }] }

/-- `after_model_callback`.  `t_now` is the `self._now()` inside
`_ms_since` (duration computation), `t_event` the event timestamp; when
the start stack is empty nothing is popped and the duration is `None`. -/
def after_model_callback (st : FxObservabilityPlugin) (t_now t_event : ℚ)
    (kw : CallbackKwargs) : FxObservabilityPlugin :=
  let response_chars := response_chars_of kw.response
  let popped :=
    match st.model_start_stack.getLast? with
    | some start_ts =>
      (st.model_start_stack.dropLast, some ((t_now - start_ts) * 1000),
        st.total_model_time_ms + (t_now - start_ts) * 1000)
    | none => (st.model_start_stack, none, st.total_model_time_ms)
  { st with
    total_response_chars := st.total_response_chars + response_chars,
    model_start_stack := popped.1,
    total_model_time_ms := popped.2.2,
    events := st.events ++
      [{ ts := t_event, etype := "model_after",
         response_chars := some response_chars,
         duration_ms := popped.2.1,
         user_id := kw.user_id, session_id := kw.session_id }] }

/-- `get_last_events`: the Python slice `self.events[-n:]`. -/
def get_last_events (st : FxObservabilityPlugin) (n : Nat := 10) : List ObsEvent :=
  if n = 0 then st.events else st.events.drop (st.events.length - n)

/-! ## Vendor-FX rate extraction (inline in `run_full_fx_pricing_pipeline`) -/

/-- The innermost step of the `quotes` arm: a numeric `rate` field of a
quote dict, else the fallback. -/
def rate_field_or_default (qkvs : List (String × JsonVal)) : ℚ :=
  match json_get "rate" qkvs with
  | some r => if py_is_number r then py_to_float r else 0.14
  | none => 0.14

/-- The `if isinstance(q0, dict) ...` step of the `quotes` arm. -/
def quotes_q0_rate (q0 : JsonVal) : ℚ :=
  match q0 with
  | JsonVal.obj qkvs => rate_field_or_default qkvs
  | _ => 0.14

/-- The `elif "quotes" in vendor_obj ...` arm: the first element of a
non-empty `quotes` list, when it is a dict with a numeric `rate`. -/
def quotes_first_rate (kvs : List (String × JsonVal)) : ℚ :=
  match json_get "quotes" kvs with
  | some (JsonVal.arr (q0 :: _)) => quotes_q0_rate q0
  | _ => 0.14

/-- The dict arm of the Stage-3 rate extraction of
`run_full_fx_pricing_pipeline`: `current_fx_rate = 0.14`, then if the
decoded dict has a numeric top-level `rate`, use it; `elif` it has a
non-empty `quotes` list whose first element is a dict with a numeric
`rate`, use that; otherwise keep the fallback. -/
def vendor_obj_rate (kvs : List (String × JsonVal)) : ℚ :=
  match json_get "rate" kvs with
  | some r => if py_is_number r then py_to_float r else quotes_first_rate kvs
  | none => quotes_first_rate kvs

/-- The complete Stage-3 extraction over the decode outcome: a decoded
dict goes through `vendor_obj_rate`, everything else (decode failure or
non-dict value) keeps the fallback. -/
def extract_vendor_fx_rate (parsed : Option JsonVal) : ℚ :=
  match parsed with
  | some (JsonVal.obj kvs) => vendor_obj_rate kvs
  | _ => 0.14

/-! ## Health check (`evaluate_pipeline_output_basic`) -/

/-- The fields of a pipeline result dict that the health check reads
(`result.get(key, default)`; `none` models a missing key).
`model_invocations` is the value found under
`observability_summary["model_invocations"]`, `none` when either lookup
misses and the `0` default applies. -/
structure PipelineResultFields where
  structured_summary_json : Option String := none
  evaluation_json : Option String := none
  decision_brief_text : Option String := none
  model_invocations : Option Nat := none

/-- The dict returned by `evaluate_pipeline_output_basic`. -/
structure HealthCheck where
  passed : Bool
  issue_count : Nat
  issues : List String
deriving DecidableEq

/-- `evaluate_pipeline_output_basic`, issues appended in source order:
JSON decode failures, empty brief, short brief, zero model invocations,
then the two not-a-dict checks on the decoded values (a decode failure
substitutes the empty dict, which *is* a dict, so the not-a-dict flag
fires only on a successful decode of a non-object). -/
def evaluate_pipeline_output_basic (loads : JsonLoads)
    (result : PipelineResultFields) : HealthCheck :=
  let structured_summary_json := result.structured_summary_json.getD ""
  let evaluation_json := result.evaluation_json.getD ""
  let decision_brief_text := result.decision_brief_text.getD ""
  let struct_parse := loads structured_summary_json
  let eval_parse := loads evaluation_json
  let struct_obj : JsonVal := (struct_parse).getD (JsonVal.obj [])
  let eval_obj : JsonVal := (eval_parse).getD (JsonVal.obj [])
  let issues : List String :=
    (if struct_parse.isNone then ["structured_summary_not_valid_json"] else []) ++
    (if eval_parse.isNone then ["evaluation_not_valid_json"] else []) ++
    (if py_strip_s decision_brief_text = "" then ["empty_decision_brief"] else []) ++
    (if (py_strip_s decision_brief_text).length < 400
      then ["decision_brief_too_short"] else []) ++
    (if result.model_invocations.getD 0 = 0 then ["no_model_invocations"] else []) ++
    (if is_json_obj struct_obj then [] else ["structured_summary_not_dict"]) ++
    (if is_json_obj eval_obj then [] else ["evaluation_not_dict"])
  { passed := issues.length = 0, issue_count := issues.length, issues := issues }

/-! ## The orchestrator's COMMIT step -/

/-- The free-text outputs of the seven agent stages of one pipeline run
(the opaque agent backend's responses). -/
structure StageOutputs where
  market_output : String := ""
  competitive_output : String := ""
  vendor_output : String := ""
  fx_output : String := ""
  margin_output : String := ""
  decision_output : String := ""
  evaluation_output : String := ""

/-- The `add_session_to_memory(...)` call that `run_full_fx_pricing_pipeline`
issues on COMMIT: every JSON field is the `_extract_json_block` of its
stage's output, the decision brief and structured summary come from
`_split_text_and_json(decision_output)`, and the evaluation JSON from
`_split_text_and_json(evaluation_output)`. -/
def pipeline_commit_args (product_name region reporting_currency manager_notes : String)
    (outs : StageOutputs) : AddSessionArgs :=
  { product_name := product_name,
    region := region,
    reporting_currency := reporting_currency,
    manager_notes := manager_notes,
    market_research_json := extract_json_block_str outs.market_output,
    competitive_pricing_json := extract_json_block_str outs.competitive_output,
    fx_impact_json := extract_json_block_str outs.fx_output,
    margin_scenarios_json := extract_json_block_str outs.margin_output,
    decision_brief_text := (split_text_and_json_str outs.decision_output).1,
    structured_summary_json := (split_text_and_json_str outs.decision_output).2,
    evaluation_json := (split_text_and_json_str outs.evaluation_output).2 }

/-- The entry a completed pipeline run commits to the store. -/
def pipeline_committed_entry (loads : JsonLoads) (st : FxMemoryService) (now : ℚ)
    (product_name region reporting_currency manager_notes : String)
    (outs : StageOutputs) : FxMemoryEntry :=
  (add_session_to_memory loads st now
    (pipeline_commit_args product_name region reporting_currency manager_notes outs)).2

/-- "Neither a numeric top-level `rate` nor a numeric `rate` on the first
element of a `quotes` list is available": the fallback condition of the
Stage-3 extraction, stated on the decode outcome. -/
def no_vendor_rate (p : Option JsonVal) : Prop :=
  ∀ kvs, p = some (JsonVal.obj kvs) →
    (∀ x, json_get "rate" kvs = some x → py_is_number x = false) ∧
    (∀ q rest, json_get "quotes" kvs = some (JsonVal.arr (q :: rest)) →
      ∀ qk, q = JsonVal.obj qk →
        ∀ y, json_get "rate" qk = some y → py_is_number y = false)

/-- `N` successive `add_session_to_memory` calls (each with its own
`time.time()` value), threading the store state. -/
def fold_add_sessions (loads : JsonLoads) (st : FxMemoryService)
    (calls : List (ℚ × AddSessionArgs)) : FxMemoryService :=
  calls.foldl (fun s c => (add_session_to_memory loads s c.1 c.2).1) st

/-! ## Concrete states used by the closed instances below -/

/-- A collector state holding two recorded events. -/
def demo_obs_state : FxObservabilityPlugin :=
  { fx_obs_init with
    events := [{ ts := 0, etype := "model_before" }, { ts := 1, etype := "model_after" }] }

/-- A concrete stored session entry with timestamp 5. -/
def demo_entry : FxMemoryEntry :=
  { created_at_ts := 5, product_name := "Widget", region := "US",
    reporting_currency := "USD", manager_notes := "keep price",
    market_research_json := "m", competitive_pricing_json := "c",
    fx_impact_json := "f", margin_scenarios_json := "g",
    decision_brief_text := "d", structured_summary_json := "s",
    evaluation_json := "e" }

/-- A concrete store state holding one session, one cached digest and one
metrics record under the key `("widget", "us")`. -/
def demo_store : FxMemoryService :=
  { max_sessions_per_key := 10,
    store := [(("widget", "us"), [demo_entry])],
    consolidated := [(("widget", "us"), "digest")],
    aggregate_metrics := [(("widget", "us"), ⟨1, none, none, none, some 5, some 5⟩)] }

/-- One concrete `add_session_to_memory` call (timestamp plus arguments)
under the `"Widget"`/`"US"` key. -/
def demo_call (t : ℚ) (note : String) : ℚ × AddSessionArgs :=
  (t, { product_name := "Widget", region := "US", manager_notes := note })

/-- Three concrete calls under one key. -/
def demo_calls : List (ℚ × AddSessionArgs) :=
  [demo_call 1 "a", demo_call 2 "b", demo_call 3 "c"]

/-! ## Helper lemmas: association lists, `take`, strings -/

theorem alGet_alSet_self {κ β : Type} [DecidableEq κ] (k : κ) (v : β)
    (l : List (κ × β)) : alGet k (alSet k v l) = some v := by
  induction l with
  | nil => simp [alGet, alSet]
  | cons kv rest ih =>
    by_cases h : kv.1 = k
    · simp [alSet, alGet, h]
    · simpa [alSet, alGet, h] using ih

theorem alGet_alErase_self {κ β : Type} [DecidableEq κ] (k : κ)
    (l : List (κ × β)) : alGet k (alErase k l) = none := by
  induction l with
  | nil => simp [alGet, alErase]
  | cons kv rest ih =>
    by_cases h : kv.1 = k
    · simpa [alErase, h] using ih
    · simpa [alErase, alGet, h] using ih

theorem alGet_alErase_of_ne {κ β : Type} [DecidableEq κ] {k k' : κ} (h : k' ≠ k)
    (l : List (κ × β)) : alGet k' (alErase k l) = alGet k' l := by
  induction l with
  | nil => simp [alErase]
  | cons kv rest ih =>
    by_cases hk : kv.1 = k
    · have hne : kv.1 ≠ k' := by rw [hk]; exact fun hh => h hh.symm
      rw [alErase, if_pos hk, ih, alGet, if_neg hne]
    · rw [alErase, if_neg hk, alGet, alGet]
      by_cases hk' : kv.1 = k'
      · rw [if_pos hk', if_pos hk']
      · rw [if_neg hk', if_neg hk', ih]

theorem alErase_sublist {κ β : Type} [DecidableEq κ] (k : κ)
    (l : List (κ × β)) : List.Sublist (alErase k l) l := by
  induction l with
  | nil => simp [alErase]
  | cons kv rest ih =>
    by_cases h : kv.1 = k
    · rw [alErase, if_pos h]
      exact ih.trans (List.sublist_cons_self kv rest)
    · rw [alErase, if_neg h]
      exact ih.cons₂ kv

theorem mem_alErase {κ β : Type} [DecidableEq κ] {k : κ} {kv : κ × β}
    {l : List (κ × β)} (h : kv ∈ alErase k l) : kv ∈ l ∧ kv.1 ≠ k := by
  induction l with
  | nil => simp [alErase] at h
  | cons hd rest ih =>
    by_cases hk : hd.1 = k
    · rw [alErase, if_pos hk] at h
      exact ⟨List.mem_cons_of_mem hd (ih h).1, (ih h).2⟩
    · rw [alErase, if_neg hk] at h
      rcases List.mem_cons.mp h with h1 | h2
      · exact ⟨by simp [h1], by rw [h1]; exact hk⟩
      · exact ⟨List.mem_cons_of_mem hd (ih h2).1, (ih h2).2⟩

theorem alErase_of_not_key {κ β : Type} [DecidableEq κ] {k : κ}
    {l : List (κ × β)} (h : alGet k l = none) : alErase k l = l := by
  induction l with
  | nil => rfl
  | cons kv rest ih =>
    rw [alGet] at h
    by_cases hk : kv.1 = k
    · rw [if_pos hk] at h; cases h
    · rw [if_neg hk] at h
      rw [alErase, if_neg hk, ih h]

theorem alGet_mem {κ β : Type} [DecidableEq κ] {k : κ} {b : β}
    {l : List (κ × β)} (h : alGet k l = some b) : (k, b) ∈ l := by
  induction l with
  | nil => simp [alGet] at h
  | cons kv rest ih =>
    rw [alGet] at h
    by_cases hk : kv.1 = k
    · rw [if_pos hk] at h
      injection h with h
      have hkv : kv = (k, b) := by cases kv; simp_all
      rw [← hkv]
      exact List.mem_cons_self kv rest
    · rw [if_neg hk] at h
      exact List.mem_cons_of_mem kv (ih h)

theorem take_append_take {α : Type} (K : Nat) (xs l : List α) :
    List.take K (xs ++ List.take K l) = List.take K (xs ++ l) := by
  rcases Nat.le_total K xs.length with h | h
  · rw [List.take_append_of_le_length h, List.take_append_of_le_length h]
  · rw [List.take_append_eq_append_take, List.take_append_eq_append_take,
      List.take_take, Nat.min_eq_left (Nat.sub_le K xs.length)]

/-! ## Frame lemmas for the memory store -/

theorem update_aggregate_metrics_store (loads : JsonLoads) (k : String × String)
    (st : FxMemoryService) : (update_aggregate_metrics loads k st).store = st.store := by
  unfold update_aggregate_metrics
  split <;> rfl

theorem update_aggregate_metrics_consolidated (loads : JsonLoads)
    (k : String × String) (st : FxMemoryService) :
    (update_aggregate_metrics loads k st).consolidated = st.consolidated := by
  unfold update_aggregate_metrics
  split <;> rfl

theorem update_aggregate_metrics_max (loads : JsonLoads) (k : String × String)
    (st : FxMemoryService) :
    (update_aggregate_metrics loads k st).max_sessions_per_key
      = st.max_sessions_per_key := by
  unfold update_aggregate_metrics
  split <;> rfl

theorem add_session_consolidated (loads : JsonLoads) (st : FxMemoryService)
    (now : ℚ) (a : AddSessionArgs) :
    (add_session_to_memory loads st now a).1.consolidated = st.consolidated := by
  unfold add_session_to_memory
  rw [update_aggregate_metrics_consolidated]

theorem add_session_max (loads : JsonLoads) (st : FxMemoryService)
    (now : ℚ) (a : AddSessionArgs) :
    (add_session_to_memory loads st now a).1.max_sessions_per_key
      = st.max_sessions_per_key := by
  unfold add_session_to_memory
  rw [update_aggregate_metrics_max]

/-- The bucket of the inserted key after one `add_session_to_memory` is
the capped cons of the new entry onto the old bucket (the source's
`insert(0, ...)` + conditional truncation is an unconditional
`take max` because an untruncated bucket is shorter than the cap). -/
theorem add_session_bucket (loads : JsonLoads) (st : FxMemoryService)
    (now : ℚ) (a : AddSessionArgs) :
    (alGet (norm_key a.product_name a.region)
        (add_session_to_memory loads st now a).1.store).getD []
      = List.take st.max_sessions_per_key
          (mk_session_entry loads now a ::
            (alGet (norm_key a.product_name a.region) st.store).getD []) := by
  unfold add_session_to_memory
  rw [update_aggregate_metrics_store]
  show (alGet _ (alSet _ _ _)).getD [] = _
  rw [alGet_alSet_self]
  by_cases h :
    (mk_session_entry loads now a ::
      (alGet (norm_key a.product_name a.region) st.store).getD []).length
      > st.max_sessions_per_key
  · rw [if_pos h]
    rfl
  · rw [if_neg h, List.take_of_length_le (Nat.le_of_not_lt h)]
    rfl

/-- **C10.** `add_session_to_memory` never touches the consolidated-digest
cache: `get_consolidated_memory` returns the same value for every key
after an add as before it; consequently a digest cached by an earlier
`consolidate_recent_sessions` call survives the add unchanged (and is
stale until consolidation is re-run). -/
theorem add_session_frames_consolidated (loads : JsonLoads) (fmt : ℚ → String)
    (st : FxMemoryService) (now : ℚ) (a : AddSessionArgs)
    (product_name region : String) (max_sessions max_chars_per_note : Nat) :
    (∀ p r, get_consolidated_memory (add_session_to_memory loads st now a).1 p r
        = get_consolidated_memory st p r)
    ∧ get_consolidated_memory
        (add_session_to_memory loads
          (consolidate_recent_sessions fmt st product_name region
            max_sessions max_chars_per_note).1 now a).1 product_name region
      = some (consolidate_recent_sessions fmt st product_name region
          max_sessions max_chars_per_note).2 := by
  have cache : ∀ (st' : FxMemoryService),
      alGet (norm_key product_name region)
          (consolidate_recent_sessions fmt st' product_name region
            max_sessions max_chars_per_note).1.consolidated
        = some (consolidate_recent_sessions fmt st' product_name region
            max_sessions max_chars_per_note).2 := by
    intro st'
    unfold consolidate_recent_sessions
    split
    · exact alGet_alSet_self _ _ _
    · exact alGet_alSet_self _ _ _
  constructor
  · intro p r
    unfold get_consolidated_memory
    rw [add_session_consolidated]
  · unfold get_consolidated_memory
    rw [add_session_consolidated]
    exact cache st

/-- Closed instance of C10 at a concrete store, entry and digest
formatter. -/
theorem add_session_frames_consolidated_witness :
    (∀ p r, get_consolidated_memory
        (add_session_to_memory (fun _ => none) (fx_memory_init 10) 0
          { product_name := "Widget", region := "US" }).1 p r
        = get_consolidated_memory (fx_memory_init 10) p r)
    ∧ get_consolidated_memory
        (add_session_to_memory (fun _ => none)
          (consolidate_recent_sessions (fun _ => "t") (fx_memory_init 10)
            "Widget" "US" 5 160).1 0
          { product_name := "Widget", region := "US" }).1 "Widget" "US"
      = some (consolidate_recent_sessions (fun _ => "t") (fx_memory_init 10)
          "Widget" "US" 5 160).2 :=
  add_session_frames_consolidated (fun _ => none) (fun _ => "t")
    (fx_memory_init 10) 0 { product_name := "Widget", region := "US" }
    "Widget" "US" 5 160

/-- **C3.** `search_memory` immediately after `add_session_to_memory`
returns a non-empty sequence headed by the just-added entry, for any
search key that normalizes to the added entry's bucket key — in
particular keys differing only in case and surrounding whitespace, since
`_key` strips and case-folds both components.  (The cap and the limit
must admit at least one entry; the store default cap is 10 and the search
default limit is 10.) -/
theorem search_after_add (loads : JsonLoads) (st : FxMemoryService) (now : ℚ)
    (a : AddSessionArgs) (p r : String) (limit : Nat)
    (hkey : norm_key p r = norm_key a.product_name a.region)
    (hcap : 1 ≤ st.max_sessions_per_key) (hlimit : 1 ≤ limit) :
    search_memory (add_session_to_memory loads st now a).1 p r limit ≠ []
    ∧ (search_memory (add_session_to_memory loads st now a).1 p r limit).head?
        = some (add_session_to_memory loads st now a).2 := by
  have hsnd : (add_session_to_memory loads st now a).2
      = mk_session_entry loads now a := rfl
  obtain ⟨K, hK⟩ : ∃ K, st.max_sessions_per_key = K + 1 :=
    ⟨st.max_sessions_per_key - 1, (Nat.succ_pred_eq_of_pos hcap).symm⟩
  obtain ⟨L, hL⟩ : ∃ L, limit = L + 1 :=
    ⟨limit - 1, (Nat.succ_pred_eq_of_pos hlimit).symm⟩
  unfold search_memory
  rw [hkey, add_session_bucket, hK, hL, List.take_succ_cons, List.take_succ_cons,
    hsnd]
  exact ⟨List.cons_ne_nil _ _, rfl⟩

/-- Closed instance of C3: an entry added under `"Widget"`/`"US"` is the
head of a search under `" widget "`/`"us"`. -/
theorem search_after_add_witness :
    (norm_key " widget " "us"
        = norm_key ("Widget" : String) ("US" : String)
      ∧ 1 ≤ (fx_memory_init 10).max_sessions_per_key ∧ 1 ≤ 10)
    ∧ (search_memory
        (add_session_to_memory (fun _ => none) (fx_memory_init 10) 0
          { product_name := "Widget", region := "US" }).1 " widget " "us" 10 ≠ []
      ∧ (search_memory
          (add_session_to_memory (fun _ => none) (fx_memory_init 10) 0
            { product_name := "Widget", region := "US" }).1 " widget " "us" 10).head?
        = some (add_session_to_memory (fun _ => none) (fx_memory_init 10) 0
            { product_name := "Widget", region := "US" }).2) :=
  ⟨⟨by decide, by decide, by decide⟩,
    search_after_add (fun _ => none) (fx_memory_init 10) 0
      { product_name := "Widget", region := "US" } " widget " "us" 10
      (by decide) (by decide) (by decide)⟩

/-- **C5.** Observability pairing for model calls: a
`before_model_callback` immediately followed by `after_model_callback`
appends a `model_after` event carrying duration `(t_now - t_push) * 1000`,
which is non-negative whenever the clock did not go backwards, and adds
exactly that duration to `total_model_time_ms`; and an
`after_model_callback` on a state whose model start stack is empty appends
a `model_after` event with a `None` duration, pops nothing (all three
stacks are unchanged) and leaves the model time total unchanged.  Both
callbacks are total functions of the state: the "does not raise" contract. -/
theorem model_before_after_pairing (st st' : FxObservabilityPlugin)
    (t1 t2 t3 t4 t5 t6 : ℚ) (kw1 kw2 kw3 : CallbackKwargs)
    (hmono : t1 ≤ t3) (hempty : st'.model_start_stack = []) :
    (((after_model_callback (before_model_callback st t1 t2 kw1) t3 t4 kw2).events.getLast?).map
        (fun e => (e.etype, e.duration_ms))
      = some ("model_after", some ((t3 - t1) * 1000))
    ∧ 0 ≤ (t3 - t1) * 1000
    ∧ (after_model_callback (before_model_callback st t1 t2 kw1) t3 t4 kw2).total_model_time_ms
        = (before_model_callback st t1 t2 kw1).total_model_time_ms + (t3 - t1) * 1000)
    ∧ (((after_model_callback st' t5 t6 kw3).events.getLast?).map
        (fun e => (e.etype, e.duration_ms))
      = some ("model_after", none)
    ∧ (after_model_callback st' t5 t6 kw3).model_start_stack = []
    ∧ (after_model_callback st' t5 t6 kw3).tool_start_stack = st'.tool_start_stack
    ∧ (after_model_callback st' t5 t6 kw3).agent_start_stack = st'.agent_start_stack
    ∧ (after_model_callback st' t5 t6 kw3).total_model_time_ms
        = st'.total_model_time_ms) := by
  constructor
  · have hstack : (before_model_callback st t1 t2 kw1).model_start_stack
        = st.model_start_stack ++ [t1] := rfl
    constructor
    · show ((after_model_callback _ t3 t4 kw2).events.getLast?).map _ = _
      unfold after_model_callback
      rw [hstack]
      simp only [List.getLast?_concat]
      rfl
    · constructor
      · have : (0 : ℚ) ≤ t3 - t1 := by linarith
        positivity
      · unfold after_model_callback
        rw [hstack, List.getLast?_concat]
  · constructor
    · unfold after_model_callback
      rw [hempty]
      simp only [List.getLast?_concat]
      rfl
    · unfold after_model_callback
      rw [hempty]
      exact ⟨rfl, rfl, rfl, rfl⟩

/-- Closed instance of C5 at concrete timestamps and empty keyword
arguments. -/
theorem model_before_after_pairing_witness :
    ((0 : ℚ) ≤ 1 ∧ fx_obs_init.model_start_stack = [])
    ∧ ((((after_model_callback (before_model_callback fx_obs_init 0 0 {}) 1 1 {}).events.getLast?).map
          (fun e => (e.etype, e.duration_ms))
        = some ("model_after", some (((1 : ℚ) - 0) * 1000))
      ∧ 0 ≤ ((1 : ℚ) - 0) * 1000
      ∧ (after_model_callback (before_model_callback fx_obs_init 0 0 {}) 1 1 {}).total_model_time_ms
          = (before_model_callback fx_obs_init 0 0 {}).total_model_time_ms + ((1 : ℚ) - 0) * 1000)
      ∧ (((after_model_callback fx_obs_init 2 2 {}).events.getLast?).map
          (fun e => (e.etype, e.duration_ms))
        = some ("model_after", none)
      ∧ (after_model_callback fx_obs_init 2 2 {}).model_start_stack = []
      ∧ (after_model_callback fx_obs_init 2 2 {}).tool_start_stack
          = fx_obs_init.tool_start_stack
      ∧ (after_model_callback fx_obs_init 2 2 {}).agent_start_stack
          = fx_obs_init.agent_start_stack
      ∧ (after_model_callback fx_obs_init 2 2 {}).total_model_time_ms
          = fx_obs_init.total_model_time_ms)) :=
  ⟨⟨by norm_num, rfl⟩,
    model_before_after_pairing fx_obs_init fx_obs_init 0 0 1 1 2 2 {} {} {}
      (by norm_num) rfl⟩

/-- **C9 (counterexample).** The claim says `get_last_events` returns the
empty sequence when `n = 0`; on the state with one recorded event it
returns the whole event list instead, because the Python slice
`events[-0:]` is `events[0:]`. -/
theorem get_last_events_zero_counterexample :
    ¬ (get_last_events
        { fx_obs_init with events := [{ ts := 0, etype := "model_before" }] } 0
      = []) := by
  decide

/-- **C9 (amended).** For every `n ≥ 1`, `get_last_events` returns the
last `min n (number of events)` recorded events in chronological order —
a suffix of the event sequence of exactly that length (all events when
fewer than `n` exist).  For `n = 0` it returns *all* recorded events
(Python's `events[-0:]` slice), not the empty sequence. -/
theorem get_last_events_amended (st : FxObservabilityPlugin) (n : Nat)
    (h : 1 ≤ n) :
    (get_last_events st n) <:+ st.events
    ∧ (get_last_events st n).length = min n st.events.length
    ∧ get_last_events st 0 = st.events := by
  have hne : n ≠ 0 := by omega
  unfold get_last_events
  rw [if_neg hne, if_pos rfl]
  refine ⟨List.drop_suffix _ _, ?_, rfl⟩
  rw [List.length_drop]
  omega

/-- Closed instance of the amended C9 on a two-event state with `n = 1`. -/
theorem get_last_events_amended_witness :
    1 ≤ 1
    ∧ ((get_last_events demo_obs_state 1) <:+ demo_obs_state.events
      ∧ (get_last_events demo_obs_state 1).length
          = min 1 demo_obs_state.events.length
      ∧ get_last_events demo_obs_state 0 = demo_obs_state.events) :=
  ⟨le_refl 1, get_last_events_amended demo_obs_state 1 (le_refl 1)⟩

/-- **C6.** The Stage-3 vendor-FX rate extraction: a numeric top-level
`rate` field wins; failing that, a numeric `rate` on the first element of
a `quotes` list wins; in every other situation — including a JSON decode
failure (`parsed = none`) and every non-dict shape — the fixed fallback
`0.14` results.  The extraction is a total function of the decode
outcome, which is the `try/except Exception: pass` "never raises"
contract. -/
theorem vendor_fx_rate_extraction (p : Option JsonVal)
    (kvs qkvs : List (String × JsonVal)) (r r' : JsonVal) (rest : List JsonVal) :
    (json_get "rate" kvs = some r → py_is_number r = true →
      extract_vendor_fx_rate (some (JsonVal.obj kvs)) = py_to_float r)
    ∧ ((∀ x, json_get "rate" kvs = some x → py_is_number x = false) →
        json_get "quotes" kvs = some (JsonVal.arr (JsonVal.obj qkvs :: rest)) →
        json_get "rate" qkvs = some r' → py_is_number r' = true →
        extract_vendor_fx_rate (some (JsonVal.obj kvs)) = py_to_float r')
    ∧ (no_vendor_rate p → extract_vendor_fx_rate p = 0.14) := by
  have hquotes : ∀ (kvs' : List (String × JsonVal)),
      (∀ q rest', json_get "quotes" kvs' = some (JsonVal.arr (q :: rest')) →
        ∀ qk, q = JsonVal.obj qk →
          ∀ y, json_get "rate" qk = some y → py_is_number y = false) →
      quotes_first_rate kvs' = 0.14 := by
    intro kvs' h2
    unfold quotes_first_rate
    cases hq : json_get "quotes" kvs' with
    | none => rfl
    | some u =>
      cases u with
      | arr xs =>
        cases xs with
        | nil => rfl
        | cons q0 tail =>
          cases q0 with
          | obj qk =>
            show rate_field_or_default qk = 0.14
            unfold rate_field_or_default
            cases hy : json_get "rate" qk with
            | none => rfl
            | some y => simp [h2 (JsonVal.obj qk) tail hq qk rfl y hy]
          | null => rfl
          | bool b => rfl
          | num q => rfl
          | str s => rfl
          | arr ys => rfl
      | null => rfl
      | bool b => rfl
      | num q => rfl
      | str s => rfl
      | obj kvs2 => rfl
  refine ⟨?_, ?_, ?_⟩
  · intro h1 h2
    show vendor_obj_rate kvs = py_to_float r
    unfold vendor_obj_rate
    rw [h1]
    simp [h2]
  · intro hall hq hr hnum
    show vendor_obj_rate kvs = py_to_float r'
    unfold vendor_obj_rate
    have hfinish : quotes_first_rate kvs = py_to_float r' := by
      unfold quotes_first_rate
      rw [hq]
      show rate_field_or_default qkvs = py_to_float r'
      unfold rate_field_or_default
      rw [hr]
      simp [hnum]
    cases hx : json_get "rate" kvs with
    | some x => simp [hall x hx, hfinish]
    | none => exact hfinish
  · intro h
    match p with
    | none => rfl
    | some JsonVal.null => rfl
    | some (JsonVal.bool b) => rfl
    | some (JsonVal.num q) => rfl
    | some (JsonVal.str s) => rfl
    | some (JsonVal.arr xs) => rfl
    | some (JsonVal.obj kvs') =>
      obtain ⟨h1, h2⟩ := h kvs' rfl
      show vendor_obj_rate kvs' = 0.14
      unfold vendor_obj_rate
      cases hx : json_get "rate" kvs' with
      | some x => simp [h1 x hx, hquotes kvs' h2]
      | none => exact hquotes kvs' h2

/-- Closed instances of C6: a direct numeric rate, a quotes-list rate,
and the fallback on a decode failure. -/
theorem vendor_fx_rate_extraction_witness :
    extract_vendor_fx_rate (some (JsonVal.obj [("rate", JsonVal.num 2)]))
      = py_to_float (JsonVal.num 2)
    ∧ extract_vendor_fx_rate
        (some (JsonVal.obj
          [("quotes", JsonVal.arr [JsonVal.obj [("rate", JsonVal.num 3)]])]))
      = py_to_float (JsonVal.num 3)
    ∧ extract_vendor_fx_rate none = 0.14 :=
  ⟨(vendor_fx_rate_extraction (some (JsonVal.obj [("rate", JsonVal.num 2)]))
      [("rate", JsonVal.num 2)] [] (JsonVal.num 2) (JsonVal.num 2) []).1 rfl rfl,
    (vendor_fx_rate_extraction
        (some (JsonVal.obj
          [("quotes", JsonVal.arr [JsonVal.obj [("rate", JsonVal.num 3)]])]))
        [("quotes", JsonVal.arr [JsonVal.obj [("rate", JsonVal.num 3)]])]
        [("rate", JsonVal.num 3)] JsonVal.null (JsonVal.num 3) []).2.1
      (fun x hx => by simp [json_get] at hx) rfl rfl rfl,
    (vendor_fx_rate_extraction none [] [] JsonVal.null JsonVal.null []).2.2
      (fun kvs h => nomatch h)⟩

/-- Membership in a conditional singleton flag list. -/
theorem mem_ite_singleton {c : Prop} [Decidable c] {s t : String} :
    (s ∈ if c then [t] else []) ↔ (c ∧ s = t) := by
  split <;> simp_all

/-- Membership in a conditional (inverted) singleton flag list. -/
theorem mem_ite_singleton_not {c : Prop} [Decidable c] {s t : String} :
    (s ∈ if c then [] else [t]) ↔ (¬ c ∧ s = t) := by
  split <;> simp_all

/-- **C7.** The health check raises exactly the flags whose conditions
hold on the result: a JSON-validity flag iff the decode raised, a
not-a-dict flag iff the decode succeeded with a non-dict (a failed decode
substitutes `{}` which *is* a dict), the empty-brief flag iff the brief
strips to empty, the too-short flag iff the stripped brief is under 400
characters, the zero-invocation flag iff the recorded model-invocation
count is 0; the result passes iff the flag list is empty; and a result
whose `decision_brief_text` is `""` gets both `empty_decision_brief` and
`decision_brief_too_short` and does not pass. -/
theorem health_check_flags (loads : JsonLoads) (result : PipelineResultFields) :
    ("structured_summary_not_valid_json"
        ∈ (evaluate_pipeline_output_basic loads result).issues
      ↔ loads (result.structured_summary_json.getD "") = none)
    ∧ ("evaluation_not_valid_json"
        ∈ (evaluate_pipeline_output_basic loads result).issues
      ↔ loads (result.evaluation_json.getD "") = none)
    ∧ ("empty_decision_brief"
        ∈ (evaluate_pipeline_output_basic loads result).issues
      ↔ py_strip_s (result.decision_brief_text.getD "") = "")
    ∧ ("decision_brief_too_short"
        ∈ (evaluate_pipeline_output_basic loads result).issues
      ↔ (py_strip_s (result.decision_brief_text.getD "")).length < 400)
    ∧ ("no_model_invocations"
        ∈ (evaluate_pipeline_output_basic loads result).issues
      ↔ result.model_invocations.getD 0 = 0)
    ∧ ("structured_summary_not_dict"
        ∈ (evaluate_pipeline_output_basic loads result).issues
      ↔ ∃ v, loads (result.structured_summary_json.getD "") = some v
          ∧ is_json_obj v = false)
    ∧ ("evaluation_not_dict"
        ∈ (evaluate_pipeline_output_basic loads result).issues
      ↔ ∃ v, loads (result.evaluation_json.getD "") = some v
          ∧ is_json_obj v = false)
    ∧ ((evaluate_pipeline_output_basic loads result).passed = true
      ↔ (evaluate_pipeline_output_basic loads result).issues = [])
    ∧ (result.decision_brief_text.getD "" = "" →
        "empty_decision_brief" ∈ (evaluate_pipeline_output_basic loads result).issues
        ∧ "decision_brief_too_short"
            ∈ (evaluate_pipeline_output_basic loads result).issues
        ∧ (evaluate_pipeline_output_basic loads result).passed = false) := by
  have hpass : (evaluate_pipeline_output_basic loads result).passed = true
      ↔ (evaluate_pipeline_output_basic loads result).issues = [] := by
    show (decide ((evaluate_pipeline_output_basic loads result).issues.length = 0) = true)
      ↔ _
    rw [decide_eq_true_iff, List.length_eq_zero]
  refine ⟨?_, ?_, ?_, ?_, ?_, ?_, ?_, hpass, ?_⟩
  · unfold evaluate_pipeline_output_basic
    cases hs : loads (result.structured_summary_json.getD "") <;>
      simp [hs, mem_ite_singleton, mem_ite_singleton_not]
  · unfold evaluate_pipeline_output_basic
    cases he : loads (result.evaluation_json.getD "") <;>
      simp [he, mem_ite_singleton, mem_ite_singleton_not]
  · unfold evaluate_pipeline_output_basic
    simp [mem_ite_singleton, mem_ite_singleton_not]
  · unfold evaluate_pipeline_output_basic
    simp [mem_ite_singleton, mem_ite_singleton_not]
  · unfold evaluate_pipeline_output_basic
    simp [mem_ite_singleton, mem_ite_singleton_not]
  · unfold evaluate_pipeline_output_basic
    cases hs : loads (result.structured_summary_json.getD "") <;>
      simp [hs, mem_ite_singleton, mem_ite_singleton_not, is_json_obj]
  · unfold evaluate_pipeline_output_basic
    cases he : loads (result.evaluation_json.getD "") <;>
      simp [he, mem_ite_singleton, mem_ite_singleton_not, is_json_obj]
  · intro hempty
    have h3 : "empty_decision_brief"
        ∈ (evaluate_pipeline_output_basic loads result).issues := by
      unfold evaluate_pipeline_output_basic
      simp [hempty, mem_ite_singleton, mem_ite_singleton_not, py_strip_s, py_strip,
        py_lstrip, py_rstrip]
    have h4 : "decision_brief_too_short"
        ∈ (evaluate_pipeline_output_basic loads result).issues := by
      unfold evaluate_pipeline_output_basic
      simp [hempty, mem_ite_singleton, mem_ite_singleton_not, py_strip_s, py_strip,
        py_lstrip, py_rstrip]
    refine ⟨h3, h4, ?_⟩
    have hne : (evaluate_pipeline_output_basic loads result).issues ≠ [] :=
      List.ne_nil_of_mem h3
    rcases hb : (evaluate_pipeline_output_basic loads result).passed with _ | _
    · rfl
    · exact absurd (hpass.mp hb) hne

/-- Closed instance of C7 on a fabricated result with an empty decision
brief. -/
theorem health_check_flags_witness :
    ({ decision_brief_text := some "" } : PipelineResultFields).decision_brief_text.getD "" = ""
    ∧ ("empty_decision_brief"
        ∈ (evaluate_pipeline_output_basic (fun _ => none)
            { decision_brief_text := some "" }).issues
      ∧ "decision_brief_too_short"
          ∈ (evaluate_pipeline_output_basic (fun _ => none)
              { decision_brief_text := some "" }).issues
      ∧ (evaluate_pipeline_output_basic (fun _ => none)
          { decision_brief_text := some "" }).passed = false) :=
  ⟨rfl, (health_check_flags (fun _ => none) { decision_brief_text := some "" }).2.2.2.2.2.2.2.2 rfl⟩

/-- The bucket of key `k` after a sequence of adds, all keyed at `k`,
starting from a store whose `k`-bucket respects the cap: the capped
newest-first entry list. -/
theorem fold_add_bucket (loads : JsonLoads) (k : String × String) :
    ∀ (calls : List (ℚ × AddSessionArgs)) (st : FxMemoryService),
      (∀ c ∈ calls, norm_key c.2.product_name c.2.region = k) →
      ((alGet k st.store).getD []).length ≤ st.max_sessions_per_key →
      (alGet k (fold_add_sessions loads st calls).store).getD []
        = List.take st.max_sessions_per_key
            ((calls.map (fun c => mk_session_entry loads c.1 c.2)).reverse
              ++ (alGet k st.store).getD [])
      ∧ (fold_add_sessions loads st calls).max_sessions_per_key
          = st.max_sessions_per_key := by
  intro calls
  induction calls with
  | nil =>
    intro st hk hlen
    refine ⟨?_, rfl⟩
    show (alGet k st.store).getD [] = _
    rw [List.map_nil, List.reverse_nil, List.nil_append,
      List.take_of_length_le hlen]
  | cons c cs ih =>
    intro st hk hlen
    have hkc : norm_key c.2.product_name c.2.region = k :=
      hk c (List.mem_cons_self c cs)
    have hfold : fold_add_sessions loads st (c :: cs)
        = fold_add_sessions loads (add_session_to_memory loads st c.1 c.2).1 cs := rfl
    have hb1 : (alGet k (add_session_to_memory loads st c.1 c.2).1.store).getD []
        = List.take st.max_sessions_per_key
            (mk_session_entry loads c.1 c.2 :: (alGet k st.store).getD []) := by
      rw [← hkc]
      exact add_session_bucket loads st c.1 c.2
    have hmax1 : (add_session_to_memory loads st c.1 c.2).1.max_sessions_per_key
        = st.max_sessions_per_key := add_session_max loads st c.1 c.2
    have hlen1 : ((alGet k (add_session_to_memory loads st c.1 c.2).1.store).getD []).length
        ≤ (add_session_to_memory loads st c.1 c.2).1.max_sessions_per_key := by
      rw [hb1, hmax1, List.length_take]
      exact Nat.min_le_left _ _
    obtain ⟨ihb, ihm⟩ := ih (add_session_to_memory loads st c.1 c.2).1
      (fun c' hc' => hk c' (List.mem_cons_of_mem c hc')) hlen1
    refine ⟨?_, by rw [hfold, ihm, hmax1]⟩
    rw [hfold, ihb, hmax1, hb1, take_append_take, List.map_cons, List.reverse_cons,
      List.append_assoc, List.singleton_append]

/-- **C2.** Starting from an empty store with cap `K`, after the calls in
`calls` (all normalizing to one bucket key), a search with limit `K + 5`
returns exactly the capped newest-first entry list: the entries of the
last `min N K` calls in reverse call order, so the entries dropped by the
cap are the oldest ones, and the result has exactly `min N K` elements. -/
theorem bucket_cap_invariant (loads : JsonLoads) (K : Nat)
    (calls : List (ℚ × AddSessionArgs)) (p r : String)
    (hkey : ∀ c ∈ calls, norm_key c.2.product_name c.2.region = norm_key p r) :
    search_memory (fold_add_sessions loads (fx_memory_init K) calls) p r (K + 5)
      = ((calls.map (fun c => mk_session_entry loads c.1 c.2)).reverse).take K
    ∧ (search_memory (fold_add_sessions loads (fx_memory_init K) calls) p r (K + 5)).length
      = min calls.length K := by
  have h0 : (alGet (norm_key p r) (fx_memory_init K).store).getD []
      = ([] : List FxMemoryEntry) := rfl
  obtain ⟨hb, hm⟩ := fold_add_bucket loads (norm_key p r) calls (fx_memory_init K)
    hkey (by rw [h0]; exact Nat.zero_le _)
  have hsearch : search_memory (fold_add_sessions loads (fx_memory_init K) calls)
      p r (K + 5)
      = ((calls.map (fun c => mk_session_entry loads c.1 c.2)).reverse).take K := by
    unfold search_memory
    rw [hb, h0, List.append_nil]
    show List.take (K + 5) (List.take K _) = _
    rw [List.take_take, Nat.min_eq_right (by omega)]
  refine ⟨hsearch, ?_⟩
  rw [hsearch, List.length_take, List.length_reverse, List.length_map,
    Nat.min_comm]

/-- Closed instance of C2: three adds under one key with cap 2 retain the
two newest entries. -/
theorem bucket_cap_invariant_witness :
    (∀ c ∈ demo_calls,
      norm_key c.2.product_name c.2.region = norm_key "Widget" "US")
    ∧ (search_memory (fold_add_sessions (fun _ => none) (fx_memory_init 2) demo_calls)
        "Widget" "US" (2 + 5)
        = ((demo_calls.map (fun c => mk_session_entry (fun _ => none) c.1 c.2)).reverse).take 2
      ∧ (search_memory (fold_add_sessions (fun _ => none) (fx_memory_init 2) demo_calls)
          "Widget" "US" (2 + 5)).length = min demo_calls.length 2) :=
  ⟨by decide,
    bucket_cap_invariant (fun _ => none) 2 demo_calls "Widget" "US" (by decide)⟩

theorem alGet_eq_none_of_not_mem_keys {κ β : Type} [DecidableEq κ] {k : κ}
    {l : List (κ × β)} (h : k ∉ l.map (fun kv => kv.1)) : alGet k l = none := by
  induction l with
  | nil => rfl
  | cons kv rest ih =>
    rw [alGet]
    rw [List.map_cons, List.mem_cons, not_or] at h
    rw [if_neg (fun hh => h.1 hh.symm)]
    exact ih h.2

/-- Removing one key's bucket removes exactly that bucket's entries from
the total, provided the store's keys are duplicate-free. -/
theorem total_after_erase {k : String × String}
    (store : List ((String × String) × List FxMemoryEntry))
    (hnd : (store.map (fun kv => kv.1)).Nodup) :
    (store.map (fun kv => kv.2.length)).sum
      = ((alGet k store).getD []).length
        + ((alErase k store).map (fun kv => kv.2.length)).sum := by
  induction store with
  | nil => rfl
  | cons kv rest ih =>
    obtain ⟨k0, v0⟩ := kv
    rw [List.map_cons, List.nodup_cons] at hnd
    by_cases hk : k0 = k
    · have hrest : alGet k rest = none := by
        apply alGet_eq_none_of_not_mem_keys
        rw [← hk]
        exact hnd.1
      have h1 : alGet k ((k0, v0) :: rest) = some v0 := by
        rw [alGet, if_pos hk]
      have h2 : alErase k ((k0, v0) :: rest) = rest := by
        rw [alErase, if_pos hk, alErase_of_not_key hrest]
      rw [h1, h2, List.map_cons, List.sum_cons]
      rfl
    · have h1 : alGet k ((k0, v0) :: rest) = alGet k rest := by
        rw [alGet, if_neg hk]
      have h2 : alErase k ((k0, v0) :: rest) = (k0, v0) :: alErase k rest := by
        rw [alErase, if_neg hk]
      rw [h1, h2, List.map_cons, List.map_cons, List.sum_cons, List.sum_cons,
        ih hnd.2]
      show v0.length + _ = _ + (v0.length + _)
      omega

/-- When every entry of the key's bucket is older than the cutoff,
one iteration of the prune loop drops the key's bucket, digest and
metrics, and counts the bucket's entries. -/
theorem prune_key_step_erases (loads : JsonLoads) (cutoff : ℚ)
    (st : FxMemoryService) (acc : Nat) (k : String × String)
    (hall : ∀ e ∈ (alGet k st.store).getD [], e.created_at_ts < cutoff) :
    prune_key_step loads cutoff (st, acc) k
      = ({ st with store := alErase k st.store,
                   consolidated := alErase k st.consolidated,
                   aggregate_metrics := alErase k st.aggregate_metrics },
          acc + ((alGet k st.store).getD []).length) := by
  unfold prune_key_step
  have hfil : ((alGet k st.store).getD []).filter
      (fun e => decide (cutoff ≤ e.created_at_ts)) = [] := by
    rw [List.filter_eq_nil_iff]
    intro e he
    simp [not_le.mpr (hall e he)]
  show (let entries := (alGet k st.store).getD [];
    let new_entries := entries.filter (fun e => decide (cutoff ≤ e.created_at_ts));
    let removed := acc + (entries.length - new_entries.length);
    if new_entries.isEmpty then _ else _) = _
  simp only [hfil]
  simp

/-- Folding the prune loop over a key list that covers every stored key,
when every stored entry is older than the cutoff: the store empties, the
removal count totals every stored entry, and every listed key's digest
and metrics are gone (and keys already absent stay absent). -/
theorem prune_fold_all (loads : JsonLoads) (cutoff : ℚ) :
    ∀ (keys : List (String × String)) (st : FxMemoryService) (acc : Nat),
      (∀ k b, alGet k st.store = some b → ∀ e ∈ b, e.created_at_ts < cutoff) →
      (∀ kv ∈ st.store, kv.1 ∈ keys) →
      ((st.store.map (fun kv => kv.1)).Nodup) →
      (keys.foldl (prune_key_step loads cutoff) (st, acc)).1.store = []
      ∧ (keys.foldl (prune_key_step loads cutoff) (st, acc)).2
          = acc + total_entries st
      ∧ (∀ k, alGet k st.consolidated = none →
          alGet k (keys.foldl (prune_key_step loads cutoff) (st, acc)).1.consolidated
            = none)
      ∧ (∀ k ∈ keys,
          alGet k (keys.foldl (prune_key_step loads cutoff) (st, acc)).1.consolidated
            = none)
      ∧ (∀ k, alGet k st.aggregate_metrics = none →
          alGet k (keys.foldl (prune_key_step loads cutoff) (st, acc)).1.aggregate_metrics
            = none)
      ∧ (∀ k ∈ keys,
          alGet k (keys.foldl (prune_key_step loads cutoff) (st, acc)).1.aggregate_metrics
            = none) := by
  intro keys
  induction keys with
  | nil =>
    intro st acc h1 h2 h3
    have hstore : st.store = [] := by
      rcases hst : st.store with _ | ⟨kv, rest⟩
      · rfl
      · exact absurd (h2 kv (by rw [hst]; exact List.mem_cons_self kv rest))
          (List.not_mem_nil kv.1)
    refine ⟨hstore, ?_, fun k hk => hk, fun k hk => absurd hk (List.not_mem_nil k),
      fun k hk => hk, fun k hk => absurd hk (List.not_mem_nil k)⟩
    show acc = acc + total_entries st
    rw [total_entries, hstore]
    rfl
  | cons k ks ih =>
    intro st acc h1 h2 h3
    have hall : ∀ e ∈ (alGet k st.store).getD [], e.created_at_ts < cutoff := by
      rcases hbk : alGet k st.store with _ | b
      · intro e he; simp at he
      · intro e he; exact h1 k b hbk e (by simpa using he)
    rw [List.foldl_cons, prune_key_step_erases loads cutoff st acc k hall]
    have h1' : ∀ k' b', alGet k' (alErase k st.store) = some b' →
        ∀ e ∈ b', e.created_at_ts < cutoff := by
      intro k' b' hb'
      by_cases hkk : k' = k
      · rw [hkk, alGet_alErase_self] at hb'; cases hb'
      · rw [alGet_alErase_of_ne hkk] at hb'; exact h1 k' b' hb'
    have h2' : ∀ kv ∈ alErase k st.store, kv.1 ∈ ks := by
      intro kv hkv
      obtain ⟨hmem, hne⟩ := mem_alErase hkv
      rcases List.mem_cons.mp (h2 kv hmem) with h | h
      · exact absurd h hne
      · exact h
    have h3' : ((alErase k st.store).map (fun kv => kv.1)).Nodup :=
      ((alErase_sublist k st.store).map (fun kv => kv.1)).nodup h3
    obtain ⟨i1, i2, i3, i4, i5, i6⟩ :=
      ih ⟨st.max_sessions_per_key, alErase k st.store, alErase k st.consolidated,
          alErase k st.aggregate_metrics⟩
        (acc + ((alGet k st.store).getD []).length) h1' h2' h3'
    refine ⟨i1, ?_, ?_, ?_, ?_, ?_⟩
    · rw [i2]
      have htot : total_entries st
          = ((alGet k st.store).getD []).length
            + total_entries ⟨st.max_sessions_per_key, alErase k st.store,
                alErase k st.consolidated, alErase k st.aggregate_metrics⟩ :=
        total_after_erase (k := k) st.store h3
      omega
    · intro k' hk'
      apply i3
      by_cases hkk : k' = k
      · rw [hkk]; exact alGet_alErase_self k st.consolidated
      · rw [alGet_alErase_of_ne hkk]; exact hk'
    · intro k' hk'
      rcases List.mem_cons.mp hk' with h | h
      · apply i3
        rw [h]
        exact alGet_alErase_self k st.consolidated
      · exact i4 k' h
    · intro k' hk'
      apply i5
      by_cases hkk : k' = k
      · rw [hkk]; exact alGet_alErase_self k st.aggregate_metrics
      · rw [alGet_alErase_of_ne hkk]; exact hk'
    · intro k' hk'
      rcases List.mem_cons.mp hk' with h | h
      · apply i5
        rw [h]
        exact alGet_alErase_self k st.aggregate_metrics
      · exact i6 k' h

/-- **C4.** Pruning with age 0 at a time strictly later than every stored
timestamp empties the store on the first call, returns the total number
of stored entries, returns 0 on an immediately repeated call, and fully
removes the bucket, consolidated digest and aggregate metrics of every
pruned key — `get_aggregate_metrics` (and `get_consolidated_memory`) for
such keys is null afterwards.  (Keys are duplicate-free in every state the
class builds, since the buckets live in a dict.) -/
theorem prune_zero_twice (loads : JsonLoads) (st : FxMemoryService)
    (now1 now2 : ℚ)
    (hts : ∀ kv ∈ st.store, ∀ e ∈ kv.2, e.created_at_ts < now1)
    (hnd : (st.store.map (fun kv => kv.1)).Nodup) :
    (prune_sessions_older_than loads st now1 0).1.store = []
    ∧ (prune_sessions_older_than loads st now1 0).2 = total_entries st
    ∧ (prune_sessions_older_than loads
        (prune_sessions_older_than loads st now1 0).1 now2 0).2 = 0
    ∧ (∀ product region,
        norm_key product region ∈ st.store.map (fun kv => kv.1) →
        get_aggregate_metrics (prune_sessions_older_than loads st now1 0).1
            product region = none
        ∧ get_consolidated_memory (prune_sessions_older_than loads st now1 0).1
            product region = none) := by
  have hcut : now1 - (0 : ℚ) = now1 := by ring
  have h1 : ∀ k b, alGet k st.store = some b →
      ∀ e ∈ b, e.created_at_ts < now1 - 0 := by
    intro k b hb e he
    rw [hcut]
    exact hts (k, b) (alGet_mem hb) e he
  have h2 : ∀ kv ∈ st.store, kv.1 ∈ st.store.map (fun kv => kv.1) :=
    fun kv hkv => List.mem_map_of_mem _ hkv
  obtain ⟨i1, i2, i3, i4, i5, i6⟩ :=
    prune_fold_all loads (now1 - 0) (st.store.map (fun kv => kv.1)) st 0 h1 h2 hnd
  refine ⟨i1, ?_, ?_, ?_⟩
  · rw [show (prune_sessions_older_than loads st now1 0).2
        = ((st.store.map (fun kv => kv.1)).foldl
            (prune_key_step loads (now1 - 0)) (st, 0)).2 from rfl, i2]
    omega
  · show (((prune_sessions_older_than loads st now1 0).1.store.map (fun kv => kv.1)).foldl
        (prune_key_step loads (now2 - 0))
        ((prune_sessions_older_than loads st now1 0).1, 0)).2 = 0
    rw [show (prune_sessions_older_than loads st now1 0).1.store = [] from i1]
    rfl
  · intro product region hmem
    exact ⟨i6 (norm_key product region) hmem, i4 (norm_key product region) hmem⟩

/-- Closed instance of C4 on a one-key, one-entry store pruned at times
10 and 11. -/
theorem prune_zero_twice_witness :
    ((∀ kv ∈ demo_store.store, ∀ e ∈ kv.2, e.created_at_ts < 10)
      ∧ (demo_store.store.map (fun kv => kv.1)).Nodup)
    ∧ ((prune_sessions_older_than (fun _ => none) demo_store 10 0).1.store = []
      ∧ (prune_sessions_older_than (fun _ => none) demo_store 10 0).2
          = total_entries demo_store
      ∧ (prune_sessions_older_than (fun _ => none)
          (prune_sessions_older_than (fun _ => none) demo_store 10 0).1 11 0).2 = 0
      ∧ (∀ product region,
          norm_key product region ∈ demo_store.store.map (fun kv => kv.1) →
          get_aggregate_metrics
              (prune_sessions_older_than (fun _ => none) demo_store 10 0).1
              product region = none
          ∧ get_consolidated_memory
              (prune_sessions_older_than (fun _ => none) demo_store 10 0).1
              product region = none)) :=
  ⟨⟨by decide, by decide⟩,
    prune_zero_twice (fun _ => none) demo_store 10 11 (by decide) (by decide)⟩

/-- `str_find` for a single character finds an occurrence, and the least
one. -/
theorem str_find_single_spec (c : Char) :
    ∀ (s : List Char) (i : Nat), str_find [c] s = some i →
      s[i]? = some c ∧ ∀ k, k < i → s[k]? ≠ some c := by
  intro s
  induction s with
  | nil => intro i h; simp [str_find] at h
  | cons a rest ih =>
    intro i h
    rw [str_find] at h
    by_cases hpre : [c].isPrefixOf (a :: rest)
    · rw [if_pos hpre] at h
      injection h with h
      have hca : c = a := by simpa [List.isPrefixOf] using hpre
      refine ⟨?_, ?_⟩
      · rw [← h, List.getElem?_cons_zero, hca]
      · intro k hk
        rw [← h] at hk
        exact absurd hk (Nat.not_lt_zero k)
    · rw [if_neg hpre] at h
      have hca : ¬ c = a := by simpa [List.isPrefixOf] using hpre
      rcases hfind : str_find [c] rest with _ | i'
      · rw [hfind] at h; simp at h
      · rw [hfind] at h
        simp only [Option.map_some'] at h
        injection h with h
        obtain ⟨h1, h2⟩ := ih i' hfind
        refine ⟨?_, ?_⟩
        · rw [← h]
          simpa using h1
        · intro k hk
          rw [← h] at hk
          match k with
          | 0 =>
            rw [List.getElem?_cons_zero]
            intro heq
            injection heq with heq
            exact hca heq.symm
          | k' + 1 =>
            rw [List.getElem?_cons_succ]
            exact h2 k' (by omega)

/-- `str_find` for a single character succeeds on any string containing
it. -/
theorem str_find_single_exists (c : Char) :
    ∀ (s : List Char), c ∈ s → ∃ i, str_find [c] s = some i := by
  intro s
  induction s with
  | nil => intro h; cases h
  | cons a rest ih =>
    intro h
    rw [str_find]
    by_cases hpre : [c].isPrefixOf (a :: rest)
    · exact ⟨0, by rw [if_pos hpre]⟩
    · have hca : ¬ c = a := by simpa [List.isPrefixOf] using hpre
      rcases List.mem_cons.mp h with h1 | h2
      · exact absurd h1 hca
      · obtain ⟨i, hi⟩ := ih h2
        exact ⟨i + 1, by rw [if_neg hpre, hi]; rfl⟩

/-- `text.find(c)` returns the least index of `c`. -/
theorem first_idx_spec {c : Char} {s : List Char} {i : Nat}
    (h : first_idx_of c s = some i) :
    s[i]? = some c ∧ ∀ k, k < i → s[k]? ≠ some c :=
  str_find_single_spec c s i h

/-- `text.find(c)` succeeds whenever `c` occurs. -/
theorem first_idx_exists {c : Char} {s : List Char} (h : c ∈ s) :
    ∃ i, first_idx_of c s = some i :=
  str_find_single_exists c s h

/-- `text.rfind(c)` returns the greatest index of `c`. -/
theorem last_idx_spec {c : Char} {s : List Char} {j : Nat}
    (h : last_idx_of c s = some j) :
    s[j]? = some c ∧ ∀ k, j < k → s[k]? ≠ some c := by
  unfold last_idx_of at h
  rcases Option.map_eq_some'.mp h with ⟨i, hi, hj⟩
  obtain ⟨h1, h2⟩ := str_find_single_spec c s.reverse i hi
  have hilen : i < s.reverse.length := (List.getElem?_eq_some.mp h1).1
  rw [List.length_reverse] at hilen
  have hrev : s.reverse[i]? = s[s.length - 1 - i]? :=
    List.getElem?_reverse hilen
  refine ⟨?_, ?_⟩
  · rw [← hj, ← hrev]
    exact h1
  · intro k hk hkc
    by_cases hklen : k < s.length
    · have hik : s.length - 1 - k < i := by omega
      have hrev' : s.reverse[s.length - 1 - k]? = s[k]? := by
        rw [List.getElem?_reverse (by omega)]
        congr 1
        omega
      exact h2 (s.length - 1 - k) hik (by rw [hrev', hkc])
    · rw [List.getElem?_eq_none (Nat.le_of_not_lt hklen)] at hkc
      cases hkc

/-- `text.rfind(c)` succeeds whenever `c` occurs. -/
theorem last_idx_exists {c : Char} {s : List Char} (h : c ∈ s) :
    ∃ j, last_idx_of c s = some j := by
  obtain ⟨i, hi⟩ := str_find_single_exists c s.reverse (by simpa using h)
  exact ⟨s.length - 1 - i, by unfold last_idx_of; rw [hi]; rfl⟩

/-- **C1.** `_extract_json_block` case analysis: with at least one fenced
block, the result is the last block stripped; with no fenced block and a
`{` strictly before a `}`, the result is the stripped inclusive slice
from the least index of `{` to the greatest index of `}`; with neither
pattern, the literal `"\x7b\x7d"` — in particular on the empty input.
The function is total, which embeds the "never raises" contract. -/
theorem extract_json_block_correct (s : List Char) :
    (fenced_blocks s ≠ [] →
      ∃ b, (fenced_blocks s).getLast? = some b
        ∧ extract_json_block s = py_strip b)
    ∧ (fenced_blocks s = [] →
      ∀ (i j : Nat), i < j → s[i]? = some '{' → s[j]? = some '}' →
        ∃ first last,
          s[first]? = some '{' ∧ (∀ k, k < first → s[k]? ≠ some '{')
          ∧ s[last]? = some '}' ∧ (∀ k, last < k → s[k]? ≠ some '}')
          ∧ first < last
          ∧ extract_json_block s
              = py_strip ((s.drop first).take (last + 1 - first)))
    ∧ (fenced_blocks s = [] →
        (∀ (i j : Nat), i < j → ¬(s[i]? = some '{' ∧ s[j]? = some '}')) →
        extract_json_block s = "\x7b\x7d".data)
    ∧ extract_json_block [] = "\x7b\x7d".data := by
  refine ⟨?_, ?_, ?_, by decide⟩
  · intro hne
    rcases hlast : (fenced_blocks s).getLast? with _ | b
    · exact absurd (List.getLast?_eq_none_iff.mp hlast) hne
    · refine ⟨b, rfl, ?_⟩
      unfold extract_json_block
      rw [hlast]
  · intro hblocks i j hij hi hj
    obtain ⟨f, hf⟩ := first_idx_exists (List.getElem?_mem hi)
    obtain ⟨hf1, hf2⟩ := first_idx_spec hf
    obtain ⟨l, hl⟩ := last_idx_exists (List.getElem?_mem hj)
    obtain ⟨hl1, hl2⟩ := last_idx_spec hl
    have hfi : f ≤ i := by
      by_contra hlt
      exact hf2 i (Nat.lt_of_not_le hlt) hi
    have hjl : j ≤ l := by
      by_contra hlt
      exact hl2 j (Nat.lt_of_not_le hlt) hj
    have hfl : f < l := by omega
    refine ⟨f, l, hf1, hf2, hl1, hl2, hfl, ?_⟩
    unfold extract_json_block
    rw [hblocks]
    show (match first_idx_of '{' s, last_idx_of '}' s with
      | some first, some last =>
        if first < last then py_strip ((s.drop first).take (last + 1 - first))
        else "\x7b\x7d".data
      | _, _ => "\x7b\x7d".data) = _
    rw [hf, hl]
    show (if f < l then _ else _) = _
    rw [if_pos hfl]
  · intro hblocks hno
    unfold extract_json_block
    rw [hblocks]
    show (match first_idx_of '{' s, last_idx_of '}' s with
      | some first, some last =>
        if first < last then py_strip ((s.drop first).take (last + 1 - first))
        else "\x7b\x7d".data
      | _, _ => "\x7b\x7d".data) = _
    rcases hf : first_idx_of '{' s with _ | f
    · rfl
    · rcases hl : last_idx_of '}' s with _ | l
      · rfl
      · obtain ⟨hf1, _⟩ := first_idx_spec hf
        obtain ⟨hl1, _⟩ := last_idx_spec hl
        show (if f < l then _ else _) = _
        rw [if_neg (fun hlt => hno f l hlt ⟨hf1, hl1⟩)]

/-- Closed instance of C1 on an input with no fenced block and a brace
pair, plus the empty input. -/
theorem extract_json_block_correct_witness :
    (∃ first last,
      ("xx a\x7bb\x7dc".data)[first]? = some '{'
      ∧ (∀ k, k < first → ("xx a\x7bb\x7dc".data)[k]? ≠ some '{')
      ∧ ("xx a\x7bb\x7dc".data)[last]? = some '}'
      ∧ (∀ k, last < k → ("xx a\x7bb\x7dc".data)[k]? ≠ some '}')
      ∧ first < last
      ∧ extract_json_block "xx a\x7bb\x7dc".data
          = py_strip ((("xx a\x7bb\x7dc".data).drop first).take (last + 1 - first)))
    ∧ extract_json_block [] = "\x7b\x7d".data :=
  ⟨(extract_json_block_correct "xx a\x7bb\x7dc".data).2.1 (by decide) 4 6
      (by decide) (by decide) (by decide),
    (extract_json_block_correct "xx a\x7bb\x7dc".data).2.2.2⟩

/-- An element failing the predicate survives `dropWhile`. -/
theorem mem_dropWhile_of_neg {p : Char → Bool} {c : Char} (hc : p c = false) :
    ∀ {l : List Char}, c ∈ l → c ∈ l.dropWhile p := by
  intro l
  induction l with
  | nil => intro h; cases h
  | cons a rest ih =>
    intro h
    by_cases hpa : p a = true
    · rw [List.dropWhile_cons_of_pos hpa]
      rcases List.mem_cons.mp h with h1 | h2
      · rw [h1] at hc
        rw [hpa] at hc
        cases hc
      · exact ih h2
    · rw [List.dropWhile_cons_of_neg hpa]
      exact h

/-- A string containing a non-whitespace character does not strip to
empty. -/
theorem py_strip_ne_nil_of_mem {c : Char} {l : List Char} (hmem : c ∈ l)
    (hns : py_is_space c = false) : py_strip l ≠ [] := by
  have h1 : c ∈ py_lstrip l := mem_dropWhile_of_neg hns hmem
  have h2 : c ∈ py_rstrip (py_lstrip l) := by
    unfold py_rstrip
    rw [List.mem_reverse]
    exact mem_dropWhile_of_neg hns (List.mem_reverse.mpr h1)
  exact List.ne_nil_of_mem h2

/-- With no fenced block, `_extract_json_block` never returns the empty
string: the brace slice starts with `{` and the default is `"\x7b\x7d"`. -/
theorem extract_json_block_ne_nil_of_no_fence {s : List Char}
    (hblocks : fenced_blocks s = []) : extract_json_block s ≠ [] := by
  unfold extract_json_block
  rw [hblocks]
  show (match first_idx_of '{' s, last_idx_of '}' s with
    | some first, some last =>
      if first < last then py_strip ((s.drop first).take (last + 1 - first))
      else "\x7b\x7d".data
    | _, _ => "\x7b\x7d".data) ≠ []
  rcases hf : first_idx_of '{' s with _ | f <;>
    rcases hl : last_idx_of '}' s with _ | l
  · show ("\x7b\x7d".data : List Char) ≠ []
    decide
  · show ("\x7b\x7d".data : List Char) ≠ []
    decide
  · show ("\x7b\x7d".data : List Char) ≠ []
    decide
  · obtain ⟨hf1, _⟩ := first_idx_spec hf
    show (if f < l then py_strip ((s.drop f).take (l + 1 - f))
      else "\x7b\x7d".data) ≠ []
    by_cases hfl : f < l
    · rw [if_pos hfl]
      have hflen : f < s.length := (List.getElem?_eq_some.mp hf1).1
      have hdrop : s.drop f = '{' :: s.drop (f + 1) := by
        rw [List.drop_eq_getElem_cons hflen]
        have heq : s[f] = '{' := by
          have h0 := List.getElem?_eq_getElem hflen
          rw [hf1] at h0
          injection h0 with h0
          exact h0.symm
        rw [heq]
      obtain ⟨m, hm⟩ : ∃ m, l + 1 - f = m + 1 := ⟨l - f, by omega⟩
      have hmem : '{' ∈ (s.drop f).take (l + 1 - f) := by
        rw [hdrop, hm, List.take_succ_cons]
        exact List.mem_cons_self '{' _
      exact py_strip_ne_nil_of_mem hmem (by decide)
    · rw [if_neg hfl]
      show ("\x7b\x7d".data : List Char) ≠ []
      decide

/-- **C8 (counterexample).** A completed run whose decision-stage agent
emits just an empty fenced block (`"```json```"`) commits an entry with
an empty decision brief, an empty structured summary and an empty market
research JSON, so the all-non-empty invariant fails on the code. -/
theorem pipeline_commit_nonempty_counterexample :
    (pipeline_committed_entry (fun _ => none) (fx_memory_init 10) 0
      "Widget" "US" "USD" "notes"
      { market_output := "```json```",
        decision_output := "```json```" }).decision_brief_text = ""
    ∧ (pipeline_committed_entry (fun _ => none) (fx_memory_init 10) 0
        "Widget" "US" "USD" "notes"
        { market_output := "```json```",
          decision_output := "```json```" }).structured_summary_json = ""
    ∧ (pipeline_committed_entry (fun _ => none) (fx_memory_init 10) 0
        "Widget" "US" "USD" "notes"
        { market_output := "```json```",
          decision_output := "```json```" }).market_research_json = "" := by
  refine ⟨?_, ?_, ?_⟩ <;> decide

/-- The `evaluation_overall_score` back-fill of `mk_session_entry` when
the score is absent at construction. -/
theorem mk_session_entry_backfill (loads : JsonLoads) (now : ℚ)
    (a : AddSessionArgs) (kvs : List (String × JsonVal)) (v : JsonVal)
    (hnone : a.evaluation_overall_score = none)
    (hne : a.evaluation_json ≠ "")
    (hparse : safe_parse_json loads a.evaluation_json = some kvs)
    (hget : json_get "overall_score" kvs = some v)
    (hnum : py_is_number v = true) :
    (mk_session_entry loads now a).evaluation_overall_score
      = some (py_to_float v) := by
  show (match a.evaluation_overall_score with
    | some sc => some sc
    | none =>
      if a.evaluation_json ≠ "" then
        match safe_parse_json loads a.evaluation_json with
        | some kvs => numeric_field kvs "overall_score"
        | none => none
      else none) = some (py_to_float v)
  rw [hnone]
  show (if a.evaluation_json ≠ "" then
      match safe_parse_json loads a.evaluation_json with
      | some kvs => numeric_field kvs "overall_score"
      | none => none
    else none) = some (py_to_float v)
  rw [if_pos hne, hparse]
  show numeric_field kvs "overall_score" = some (py_to_float v)
  unfold numeric_field
  rw [hget]
  simp [hnum]

/-- **C8 (amended).** What the code guarantees for committed entries:
whenever a stage's output contains no fenced JSON block, the committed
JSON field (the block extraction) is non-empty — the brace-slice result
starts with `{` and the default is `"\x7b\x7d"`; an extracted field can be
empty only when the output's *last fenced block strips to the empty
string*, so neither the five upstream JSON fields nor the decision brief
(the stripped text before the first marker) are unconditionally
non-empty.  The `evaluation_overall_score` back-fill holds as claimed:
absent at construction, it is filled from the numeric `overall_score`
field whenever the committed evaluation JSON is non-blank and decodes to
an object carrying one. -/
theorem pipeline_commit_fields_amended :
    (∀ s : List Char, fenced_blocks s = [] → extract_json_block s ≠ [])
    ∧ (∀ s : List Char, extract_json_block s = [] →
        ∃ b, (fenced_blocks s).getLast? = some b ∧ py_strip b = [])
    ∧ (∀ (loads : JsonLoads) (st : FxMemoryService) (now : ℚ)
        (pn rg rc mn : String) (outs : StageOutputs)
        (kvs : List (String × JsonVal)) (v : JsonVal),
        (pipeline_committed_entry loads st now pn rg rc mn outs).evaluation_json ≠ "" →
        safe_parse_json loads
            (pipeline_committed_entry loads st now pn rg rc mn outs).evaluation_json
          = some kvs →
        json_get "overall_score" kvs = some v →
        py_is_number v = true →
        (pipeline_committed_entry loads st now pn rg rc mn outs).evaluation_overall_score
          = some (py_to_float v)) := by
  refine ⟨fun s h => extract_json_block_ne_nil_of_no_fence h, ?_, ?_⟩
  · intro s h
    by_cases hb : fenced_blocks s = []
    · exact absurd h (extract_json_block_ne_nil_of_no_fence hb)
    · rcases hlast : (fenced_blocks s).getLast? with _ | b
      · exact absurd (List.getLast?_eq_none_iff.mp hlast) hb
      · refine ⟨b, rfl, ?_⟩
        rw [← h]
        unfold extract_json_block
        rw [hlast]
  · intro loads st now pn rg rc mn outs kvs v hne hparse hget hnum
    exact mk_session_entry_backfill loads now
      (pipeline_commit_args pn rg rc mn outs) kvs v rfl hne hparse hget hnum

/-- Closed instances of the amended C8: a no-fence output extracts to a
non-empty string, an empty fenced block is the only source of emptiness,
and a committed evaluation JSON `"x"` decoding to
`\x7b"overall_score": 4\x7d` back-fills the score 4. -/
theorem pipeline_commit_fields_amended_witness :
    extract_json_block "no fence".data ≠ []
    ∧ (∃ b, (fenced_blocks "```json```".data).getLast? = some b ∧ py_strip b = [])
    ∧ (pipeline_committed_entry
        (fun s => if s = "x" then some (JsonVal.obj [("overall_score", JsonVal.num 4)]) else none)
        (fx_memory_init 10) 0 "Widget" "US" "USD" "notes"
        { evaluation_output := "```json x```" }).evaluation_overall_score
      = some (py_to_float (JsonVal.num 4)) :=
  ⟨pipeline_commit_fields_amended.1 "no fence".data (by decide),
    pipeline_commit_fields_amended.2.1 "```json```".data (by decide),
    pipeline_commit_fields_amended.2.2
      (fun s => if s = "x" then some (JsonVal.obj [("overall_score", JsonVal.num 4)]) else none)
      (fx_memory_init 10) 0 "Widget" "US" "USD" "notes"
      { evaluation_output := "```json x```" }
      [("overall_score", JsonVal.num 4)] (JsonVal.num 4)
      (by decide) rfl rfl rfl⟩
